import Mathlib

/-!
Verification of the correlated synthetic market-data engine
(rust-market-data).  The definitions below are a shallow embedding of the
Rust source: `src/model.rs`, `src/tick.rs`, `src/simulator/mod.rs`,
`backend/src/simulator/universe.rs`, `backend/src/simulator/gateway.rs`
and `backend/src/simulator/metrics.rs`.  Machine floating-point values are
embedded as rationals, `u128` timestamps as naturals, and the external
linear-algebra routines (`nalgebra`) as explicit matrix arithmetic over
`ℚ`; the square root inside the renormalization and the fallible Cholesky
factorization are parameters of the definitions that use them, since their
numeric content never matters for the properties proved here.
-/

/-- Embeds `enum Region` from `src/model.rs` (five variants). -/
inductive Region where
  | northAmerica
  | southAmerica
  | europe
  | asiaPacific
  | middleEastAfrica
deriving DecidableEq

/-- Embeds `Region::ALL` from `src/model.rs`. -/
def Region.ALL : List Region :=
  [.northAmerica, .southAmerica, .europe, .asiaPacific, .middleEastAfrica]

/-- Embeds `Region::prefix` from `src/model.rs` (renamed: `prefix` is a Lean
keyword). -/
def Region.prefixStr : Region → String
  | .northAmerica => "NA"
  | .southAmerica => "SA"
  | .europe => "EU"
  | .asiaPacific => "AP"
  | .middleEastAfrica => "ME"

/-- Embeds `Region::index` from `src/model.rs`. -/
def Region.index : Region → ℕ
  | .northAmerica => 0
  | .southAmerica => 1
  | .europe => 2
  | .asiaPacific => 3
  | .middleEastAfrica => 4

/-- Embeds `enum Sector` from `src/model.rs` (ten variants). -/
inductive Sector where
  | technology
  | financials
  | industrials
  | healthcare
  | consumerDiscretionary
  | consumerStaples
  | energy
  | utilities
  | materials
  | realEstate
deriving DecidableEq

/-- Embeds `Sector::ALL` from `src/model.rs`. -/
def Sector.ALL : List Sector :=
  [.technology, .financials, .industrials, .healthcare,
   .consumerDiscretionary, .consumerStaples, .energy, .utilities,
   .materials, .realEstate]

/-- Embeds `Sector::prefix` from `src/model.rs` (renamed: `prefix` is a Lean
keyword). -/
def Sector.prefixStr : Sector → String
  | .technology => "TECH"
  | .financials => "FIN"
  | .industrials => "IND"
  | .healthcare => "HLT"
  | .consumerDiscretionary => "CND"
  | .consumerStaples => "CNS"
  | .energy => "ENG"
  | .utilities => "UTL"
  | .materials => "MAT"
  | .realEstate => "REA"

/-- Embeds `Sector::index` from `src/model.rs`. -/
def Sector.index : Sector → ℕ
  | .technology => 0
  | .financials => 1
  | .industrials => 2
  | .healthcare => 3
  | .consumerDiscretionary => 4
  | .consumerStaples => 5
  | .energy => 6
  | .utilities => 7
  | .materials => 8
  | .realEstate => 9

/-- Embeds `struct Equity` from `src/model.rs`. -/
structure Equity where
  symbol : String
  region : Region
  sector : Sector
deriving DecidableEq

/-- Embeds `struct Tick` from `src/tick.rs`; `price: f64` becomes `ℚ` and
`timestamp_ms: u128` becomes `ℕ` (the program never exercises `u128`
overflow: wall-clock milliseconds plus a symbol index stay far below
`2^128`). -/
structure Tick where
  symbol : String
  price : ℚ
  timestamp_ms : ℕ
  region : Region
  sector : Sector
deriving DecidableEq

/-- Rust's `{:03}` format specifier applied to a natural number: zero-pad
to width three, as used for the replica suffix in `default_equities`
(`src/model.rs`). -/
def pad3 (n : ℕ) : String :=
  if n < 10 then "00" ++ toString n
  else if n < 100 then "0" ++ toString n
  else toString n

/-- Embeds `REPLICATION_PER_BUCKET` from `default_equities`
(`src/model.rs`). -/
def replicationPerBucket : ℕ := 10

/-- Embeds `default_equities` from `src/model.rs`: regions outer, sectors
middle, replicas inner; symbol is region prefix, then sector prefix, then
the three-digit zero-padded replica number. -/
def default_equities : List Equity :=
  (Region.ALL.map (fun region =>
    (Sector.ALL.map (fun sector =>
      (List.range replicationPerBucket).map (fun replica =>
        { symbol := region.prefixStr ++ sector.prefixStr ++ pad3 replica
          region := region
          sector := sector : Equity }))).flatten)).flatten

/-- Written from the spec's ordering sentence (regions outer, sectors
middle, replicas inner, three-digit replica suffix), to be compared with
`default_equities`: the equity the spec predicts at flat index `i`. -/
def spec_equity_at_index (i : ℕ) : Equity :=
  let region := Region.ALL.getD (i / 100) Region.northAmerica
  let sector := Sector.ALL.getD ((i / 10) % 10) Sector.technology
  { symbol := region.prefixStr ++ sector.prefixStr ++ pad3 (i % 10)
    region := region
    sector := sector }

/-- Embeds the price update of one symbol inside one generator cycle
(`run_tick_generator`, `src/simulator/mod.rs` line 214):
`*price = (*price * (1.0 + *corr * 0.002)).max(0.01)`. -/
def updatePrice (price corr : ℚ) : ℚ :=
  max (price * (1 + corr * (2 / 1000))) (1 / 100)

/-- Embeds the tick-building map of one generator cycle
(`run_tick_generator`, `src/simulator/mod.rs` lines 208-223): zip the
price vector with the equities and the correlated innovations, enumerate,
update each price and build the `Tick` stamped `timestamp_base + idx`. -/
def generateCycle (equities : List Equity) (prices corrs : List ℚ)
    (timestamp_base : ℕ) : List Tick :=
  ((prices.zip equities).zip corrs).enum.map (fun entry =>
    match entry with
    | (idx, ((price, equity), corr)) =>
      { symbol := equity.symbol
        price := updatePrice price corr
        timestamp_ms := timestamp_base + idx
        region := equity.region
        sector := equity.sector })

/-- The price vector after one generator cycle: the in-place mutation of
`prices` performed by the same loop (`src/simulator/mod.rs` line 214). -/
def cyclePrices (prices corrs : List ℚ) : List ℚ :=
  (prices.zip corrs).map (fun pc => updatePrice pc.1 pc.2)

/-- A multi-cycle generator run: each cycle supplies its correlated
innovation vector and the wall-clock reading `t0` taken once per cycle by
`current_timestamp_ms` (`src/simulator/mod.rs` lines 206, 402-409); the
emission stream is the concatenation of the per-cycle batches and the
price vector carries over from cycle to cycle. -/
def runCycles (equities : List Equity) (prices : List ℚ) :
    List (List ℚ × ℕ) → List Tick
  | [] => []
  | cycle :: rest =>
    generateCycle equities prices cycle.1 cycle.2 ++
      runCycles equities (cyclePrices prices cycle.1) rest

/-- Embeds `struct BatchAccumulator` (`backend/src/simulator/gateway.rs`
lines 268-271): the `HashMap<String, Tick>` is modelled as an association
list with pairwise-distinct keys (maintained by `ingest`). -/
structure BatchAccumulator where
  latest : List (String × Tick)
deriving DecidableEq

/-- Embeds `BatchAccumulator::default()`: the empty map. -/
def BatchAccumulator.empty : BatchAccumulator := ⟨[]⟩

/-- Embeds `BatchAccumulator::ingest` (`backend/src/simulator/gateway.rs`
lines 274-276): `self.latest.insert(tick.symbol.clone(), tick)` replaces
any existing entry for that key. -/
def BatchAccumulator.ingest (acc : BatchAccumulator) (tick : Tick) :
    BatchAccumulator :=
  ⟨(tick.symbol, tick) :: acc.latest.filter (fun kv => !(kv.1 == tick.symbol))⟩

/-- Embeds `BatchAccumulator::snapshot` (`backend/src/simulator/gateway.rs`
lines 278-282): collect the values and sort ascending by symbol
(`ticks.sort_by(|a, b| a.symbol.cmp(&b.symbol))`). -/
def BatchAccumulator.snapshot (acc : BatchAccumulator) : List Tick :=
  List.insertionSort (fun a b => a.symbol ≤ b.symbol) (acc.latest.map Prod.snd)

/-- Embeds `BatchAccumulator::is_empty` (`backend/src/simulator/gateway.rs`
lines 284-286). -/
def BatchAccumulator.isEmpty (acc : BatchAccumulator) : Bool :=
  acc.latest.isEmpty

/-- `HashMap::get` on the accumulator: the tick stored for a symbol. -/
def BatchAccumulator.find (acc : BatchAccumulator) (s : String) :
    Option Tick :=
  (acc.latest.find? (fun kv => kv.1 == s)).map Prod.snd

/-- Ingest a stream of ticks into an initially empty accumulator, in
arrival order (the `recv` arm of `run_gateway_aggregator`). -/
def ingestAll (ts : List Tick) : BatchAccumulator :=
  ts.foldl BatchAccumulator.ingest BatchAccumulator.empty

/-- The events the gateway aggregator reports to the metrics channel,
as constructed at `backend/src/simulator/gateway.rs` lines 110 and 132:
`MetricsEvent::GatewayBackpressure { dropped: 1 }` on a full queue and
`MetricsEvent::GatewayLag { skipped, component }` on broadcast lag. -/
inductive ReportedMetric where
  | gatewayBackpressure (dropped : ℕ)
  | gatewayLag (skipped : ℕ) (component : String)
deriving DecidableEq

/-- Embeds `enum MetricsEvent` exactly as declared in
`backend/src/simulator/metrics.rs` lines 14-26: `TickBatch { generated }`,
`GatewayBatch { symbols }` and `GatewayLag { skipped, component }` are its
only variants. -/
inductive MetricsEvent where
  | tickBatch (generated : ℕ)
  | gatewayBatch (symbols : ℕ)
  | gatewayLag (skipped : ℕ) (component : String)
deriving DecidableEq

/-- The evident constructor-for-constructor correspondence between the
events the aggregator reports (`backend/src/simulator/gateway.rs`) and the
`MetricsEvent` type declared in `backend/src/simulator/metrics.rs`:
`GatewayLag` exists on both sides, while `GatewayBackpressure` has no
counterpart in the declared enum. -/
def asMetricsEvent : ReportedMetric → Option MetricsEvent
  | .gatewayLag skipped component => some (.gatewayLag skipped component)
  | .gatewayBackpressure _ => none

/-- The aggregator's mutable state: its accumulator and the bounded
aggregator-to-dispatcher queue (`mpsc::channel` of capacity `queue_depth`,
`backend/src/simulator/gateway.rs` line 63), modelled as the list of
batches currently in flight. -/
structure AggregatorState where
  acc : BatchAccumulator
  queue : List (List Tick)
deriving DecidableEq

/-- The wake-up events of the aggregator's select loop
(`run_gateway_aggregator`, `backend/src/simulator/gateway.rs` lines
101-155): a throttle-timer tick, a tick received from the source
broadcast, or a `Lagged(skipped)` report.  (The closed-channel arms end
the loop and are not state transitions.) -/
inductive GatewayEvent where
  | timer
  | recv (t : Tick)
  | lagged (skipped : ℕ)

/-- One iteration of `run_gateway_aggregator`'s select loop
(`backend/src/simulator/gateway.rs` lines 101-155): on a timer tick, if
the accumulator is non-empty take a snapshot; enqueue it when the bounded
queue has room (`try_send` succeeds), otherwise keep the state and report
`GatewayBackpressure { dropped: 1 }`; on a received tick, ingest it; on
lag, report `GatewayLag`.  Returns the next state and the metrics event
reported during the iteration, if any. -/
def aggregatorStep (queueDepth : ℕ) (s : AggregatorState) :
    GatewayEvent → AggregatorState × Option ReportedMetric
  | .timer =>
    if s.acc.isEmpty then (s, none)
    else
      let snap := s.acc.snapshot
      if snap.isEmpty then (s, none)
      else if s.queue.length < queueDepth then
        ({ s with queue := s.queue ++ [snap] }, none)
      else (s, some (.gatewayBackpressure 1))
  | .recv t => ({ s with acc := s.acc.ingest t }, none)
  | .lagged skipped => (s, some (.gatewayLag skipped ("aggregator")))

/-- The symbol comparison used by `snapshot`'s `sort_by` is total. -/
instance : IsTotal Tick (fun a b => a.symbol ≤ b.symbol) :=
  ⟨fun a b => le_total a.symbol b.symbol⟩

/-- The symbol comparison used by `snapshot`'s `sort_by` is transitive. -/
instance : IsTrans Tick (fun a b => a.symbol ≤ b.symbol) :=
  ⟨fun _ _ _ hab hbc => le_trans hab hbc⟩

/-- A JSON value, the target of `serde_json` serialization; numbers are
embedded as rationals. -/
inductive Json where
  | str (s : String)
  | num (q : ℚ)
  | obj (fields : List (String × Json))

/-- Field lookup in a JSON object (how `serde` locates a named field while
deserializing a struct). -/
def Json.getField (j : Json) (key : String) : Option Json :=
  match j with
  | .obj fields => (fields.find? (fun kv => kv.1 == key)).map Prod.snd
  | _ => none

/-- Read a JSON string value. -/
def Json.asString : Json → Option String
  | .str s => some s
  | _ => none

/-- Read a JSON number. -/
def Json.asNum : Json → Option ℚ
  | .num q => some q
  | _ => none

/-- Read a JSON number as an unsigned integer (for `timestamp_ms: u128`). -/
def Json.asNat (j : Json) : Option ℕ :=
  (j.asNum).bind (fun q => if q.den = 1 ∧ 0 ≤ q.num then some q.num.toNat else none)

/-- The serde `snake_case` encoding of `Region`
(`#[serde(rename_all = "snake_case")]`, `src/model.rs` line 5). -/
def regionToString : Region → String
  | .northAmerica => "north_america"
  | .southAmerica => "south_america"
  | .europe => "europe"
  | .asiaPacific => "asia_pacific"
  | .middleEastAfrica => "middle_east_africa"

/-- The serde `snake_case` decoding of `Region`. -/
def regionFromString (s : String) : Option Region :=
  Region.ALL.find? (fun r => regionToString r == s)

/-- The serde `snake_case` encoding of `Sector`
(`#[serde(rename_all = "snake_case")]`, `src/model.rs` line 58). -/
def sectorToString : Sector → String
  | .technology => "technology"
  | .financials => "financials"
  | .industrials => "industrials"
  | .healthcare => "healthcare"
  | .consumerDiscretionary => "consumer_discretionary"
  | .consumerStaples => "consumer_staples"
  | .energy => "energy"
  | .utilities => "utilities"
  | .materials => "materials"
  | .realEstate => "real_estate"

/-- The serde `snake_case` decoding of `Sector`. -/
def sectorFromString (s : String) : Option Sector :=
  Sector.ALL.find? (fun c => sectorToString c == s)

/-- `serde_json::to_*` on a `Tick` (`#[derive(Serialize)]`,
`src/tick.rs`): an object with the struct's fields in declaration order,
region and sector encoded as their snake_case variant names. -/
def tickToJson (t : Tick) : Json :=
  .obj [(("symbol"), .str t.symbol),
        (("price"), .num t.price),
        (("timestamp_ms"), .num (t.timestamp_ms : ℚ)),
        (("region"), .str (regionToString t.region)),
        (("sector"), .str (sectorToString t.sector))]

/-- `serde_json::from_*` for `Tick` (`#[derive(Deserialize)]`,
`src/tick.rs`): look up each field by name and decode it, failing if any
field is missing or ill-typed. -/
def tickFromJson (j : Json) : Option Tick :=
  ((j.getField ("symbol")).bind Json.asString).bind (fun symbol =>
  ((j.getField ("price")).bind Json.asNum).bind (fun price =>
  ((j.getField ("timestamp_ms")).bind Json.asNat).bind (fun timestamp_ms =>
  ((j.getField ("region")).bind Json.asString).bind (fun rs =>
  (regionFromString rs).bind (fun region =>
  ((j.getField ("sector")).bind Json.asString).bind (fun ss =>
  (sectorFromString ss).bind (fun sector =>
  some { symbol := symbol, price := price, timestamp_ms := timestamp_ms,
         region := region, sector := sector })))))))

/-- Embeds the error taxonomy entry raised when `Cholesky::new` returns
`None` (`compute_cholesky`, `backend/src/simulator/universe.rs` lines
98-102): `CorrelationNotPD` in the spec's taxonomy. -/
inductive SimError where
  | correlationNotPD
deriving DecidableEq

/-- The per-equity uniform draws consumed by one row of the feature matrix
(`factor_based_correlation`, `backend/src/simulator/universe.rs` lines
55-68): global market beta, region loading, sector loading and the
idiosyncratic style factor. -/
structure FactorDraws where
  beta : ℚ
  regionLoad : ℚ
  sectorLoad : ℚ
  idio : ℚ
deriving DecidableEq

/-- One row of the feature matrix (`factor_based_correlation`,
`backend/src/simulator/universe.rs` lines 55-68): column 0 is the beta,
column `1 + region.index()` the region loading, column
`1 + |Region| + sector.index()` the sector loading, the last column the
idiosyncratic factor, all other columns 0.  The width is
`1 + |Region| + |Sector| + 1 = 17`. -/
def featureRow (e : Equity) (d : FactorDraws) : Fin 17 → ℚ := fun c =>
  if c.val = 0 then d.beta
  else if c.val = 1 + e.region.index then d.regionLoad
  else if c.val = 1 + 5 + e.sector.index then d.sectorLoad
  else if c.val = 16 then d.idio
  else 0

/-- `f64::EPSILON` = 2⁻⁵², the floor applied to the diagonal before the
square root in `renormalize`. -/
def f64Epsilon : ℚ := 1 / 2 ^ 52

/-- Embeds `StockUniverse::renormalize`
(`backend/src/simulator/universe.rs` lines 82-96): divide every entry by
`D_i · D_j` where `D_i = sqrt(max(C_ii, ε))`, then force the diagonal to 1
exactly.  The square root (an `f64` operation) is a parameter. -/
def renormalize (sqrtFn : ℚ → ℚ) (m : Matrix (Fin n) (Fin n) ℚ) :
    Matrix (Fin n) (Fin n) ℚ :=
  let diag : Fin n → ℚ := fun i => sqrtFn (max (m i i) f64Epsilon)
  let normalized : Matrix (Fin n) (Fin n) ℚ :=
    Matrix.of fun i j => m i j / (diag i * diag j)
  Matrix.of fun i j => if i = j then 1 else normalized i j

/-- Embeds `StockUniverse::factor_based_correlation`
(`backend/src/simulator/universe.rs` lines 51-80): build the feature
matrix row by row, form `F · Fᵀ`, add the i.i.d. diagonal jitter, and
renormalize.  The uniform draws and the jitter are parameters. -/
def factorBasedCorrelation (sqrtFn : ℚ → ℚ) (equities : Fin n → Equity)
    (draws : Fin n → FactorDraws) (jitter : Fin n → ℚ) :
    Matrix (Fin n) (Fin n) ℚ :=
  let featureMatrix : Matrix (Fin n) (Fin 17) ℚ :=
    Matrix.of fun i c => featureRow (equities i) (draws i) c
  let covariance : Matrix (Fin n) (Fin n) ℚ :=
    featureMatrix * featureMatrix.transpose + Matrix.diagonal jitter
  renormalize sqrtFn covariance

/-- Embeds `StockUniverse::compute_cholesky`
(`backend/src/simulator/universe.rs` lines 98-102): the external
`nalgebra::Cholesky::new` either produces a factor or fails; it is a
parameter `chol`, and failure is mapped to `CorrelationNotPD`. -/
def computeCholesky
    (chol : Matrix (Fin n) (Fin n) ℚ → Option (Matrix (Fin n) (Fin n) ℚ))
    (m : Matrix (Fin n) (Fin n) ℚ) :
    Except SimError (Matrix (Fin n) (Fin n) ℚ) :=
  match chol m with
  | some l => .ok l
  | none => .error .correlationNotPD

/-- Embeds `struct StockUniverse`
(`backend/src/simulator/universe.rs` lines 8-12). -/
structure StockUniverse (n : ℕ) where
  equities : Fin n → Equity
  correlation : Matrix (Fin n) (Fin n) ℚ
  cholesky : Matrix (Fin n) (Fin n) ℚ

/-- Embeds `StockUniverse::new` (`backend/src/simulator/universe.rs`
lines 15-23): build the factor-based correlation, compute its Cholesky
factor, and fail with `CorrelationNotPD` if the factorization does not
exist. -/
def StockUniverse.new
    (chol : Matrix (Fin n) (Fin n) ℚ → Option (Matrix (Fin n) (Fin n) ℚ))
    (sqrtFn : ℚ → ℚ) (equities : Fin n → Equity)
    (draws : Fin n → FactorDraws) (jitter : Fin n → ℚ) :
    Except SimError (StockUniverse n) :=
  let correlation := factorBasedCorrelation sqrtFn equities draws jitter
  match computeCholesky chol correlation with
  | .error e => .error e
  | .ok cholesky => .ok ⟨equities, correlation, cholesky⟩

/-- Embeds `StockUniverse::refresh` (`backend/src/simulator/universe.rs`
lines 33-41) in state-passing style: blend the current correlation with a
fresh candidate (`0.8 / 0.2`), renormalize, recompute the Cholesky factor;
the fields are assigned only after `compute_cholesky` succeeds, so on
failure the returned state is the receiver unchanged. -/
def StockUniverse.refresh (u : StockUniverse n)
    (chol : Matrix (Fin n) (Fin n) ℚ → Option (Matrix (Fin n) (Fin n) ℚ))
    (sqrtFn : ℚ → ℚ) (draws : Fin n → FactorDraws) (jitter : Fin n → ℚ) :
    StockUniverse n × Except SimError Unit :=
  let candidate := factorBasedCorrelation sqrtFn u.equities draws jitter
  let blended : Matrix (Fin n) (Fin n) ℚ :=
    Matrix.of fun i j => u.correlation i j * (8 / 10) + candidate i j * (2 / 10)
  let renormalized := renormalize sqrtFn blended
  match computeCholesky chol renormalized with
  | .error e => (u, .error e)
  | .ok cholesky =>
    ({ u with correlation := renormalized, cholesky := cholesky }, .ok ())

/-- Embeds `StockUniverse::rebuild` (`backend/src/simulator/universe.rs`
lines 43-49) in state-passing style: replace the correlation wholesale
with a freshly drawn matrix; on Cholesky failure the receiver is returned
unchanged. -/
def StockUniverse.rebuild (u : StockUniverse n)
    (chol : Matrix (Fin n) (Fin n) ℚ → Option (Matrix (Fin n) (Fin n) ℚ))
    (sqrtFn : ℚ → ℚ) (draws : Fin n → FactorDraws) (jitter : Fin n → ℚ) :
    StockUniverse n × Except SimError Unit :=
  let correlation := factorBasedCorrelation sqrtFn u.equities draws jitter
  match computeCholesky chol correlation with
  | .error e => (u, .error e)
  | .ok cholesky =>
    ({ u with correlation := correlation, cholesky := cholesky }, .ok ())

/-- Concrete equity used by the witnesses below (element 0 of the default
universe). -/
def equityW : Equity := ⟨("NATECH000"), .northAmerica, .technology⟩

/-- Concrete tick used by the witnesses below. -/
def tickAW : Tick := ⟨("NATECH000"), 1, 100, .northAmerica, .technology⟩

/-- A second concrete tick, with a lexicographically later symbol. -/
def tickBW : Tick := ⟨("NAFIN000"), 2, 90, .northAmerica, .financials⟩

/-- A two-equity universe slice used by the witnesses below. -/
def eqs2W : List Equity :=
  [equityW, ⟨("NAFIN000"), .northAmerica, .financials⟩]

/-- Concrete aggregator state with one accumulated tick and an empty
queue. -/
def sW : AggregatorState := ⟨ingestAll [tickAW], []⟩

/-- Concrete aggregator state whose queue already holds one batch. -/
def s1W : AggregatorState := ⟨ingestAll [tickAW], [[tickAW]]⟩

/-- A Cholesky routine that always fails, exercising the error path. -/
def cholNoneW : Matrix (Fin 1) (Fin 1) ℚ → Option (Matrix (Fin 1) (Fin 1) ℚ) :=
  fun _ => none

/-- A Cholesky routine that always succeeds, exercising the success path. -/
def cholOkW : Matrix (Fin 1) (Fin 1) ℚ → Option (Matrix (Fin 1) (Fin 1) ℚ) :=
  fun _ => some (Matrix.of fun _ _ => 0)

/-- Concrete one-equity assignment for the witnesses. -/
def equitiesW1 : Fin 1 → Equity := fun _ => equityW

/-- Concrete factor draws for the witnesses. -/
def drawsW : Fin 1 → FactorDraws := fun _ => ⟨1, 1, 1, 1⟩

/-- Concrete diagonal jitter for the witnesses. -/
def jitterW : Fin 1 → ℚ := fun _ => 1

/-- Concrete one-equity universe for the witnesses. -/
def uW : StockUniverse 1 :=
  ⟨equitiesW1, Matrix.of fun _ _ => 1, Matrix.of fun _ _ => 1⟩

/-- The universe produced by a successful construction in the witness. -/
def u2W : StockUniverse 1 :=
  ⟨equitiesW1, factorBasedCorrelation id equitiesW1 drawsW jitterW,
   Matrix.of fun _ _ => 0⟩

set_option maxRecDepth 10000

/-- C8: `default_equities` returns exactly 5 × 10 × 10 = 500 equities, in
the stable order regions outer, sectors middle, replicas inner, and each
symbol is the region prefix, then the sector prefix, then the three-digit
zero-padded replica number with no separator (e.g. `NATECH007` appears). -/
theorem default_equities_spec :
    default_equities.length = 500 ∧
    default_equities = (List.range 500).map spec_equity_at_index ∧
    ("NATECH007") ∈ default_equities.map Equity.symbol := by
  refine ⟨by decide, by decide, by decide⟩

/-- Decoding inverts the snake_case encoding of `Region`. -/
theorem helper_regionFromString_toString (r : Region) :
    regionFromString (regionToString r) = some r := by
  cases r <;> decide

/-- Decoding inverts the snake_case encoding of `Sector`. -/
theorem helper_sectorFromString_toString (s : Sector) :
    sectorFromString (sectorToString s) = some s := by
  cases s <;> decide

/-- C9: serializing a `Tick` to JSON and deserializing the result yields
the original tick in every field, and the region and sector fields are
encoded as snake_case variant names. -/
theorem tick_json_roundtrip :
    (∀ t : Tick, tickFromJson (tickToJson t) = some t) ∧
    regionToString Region.northAmerica = "north_america" ∧
    sectorToString Sector.technology = "technology" := by
  refine ⟨?_, rfl, rfl⟩
  intro t
  simp [tickToJson, tickFromJson, Json.getField, Json.asString, Json.asNum,
    Json.asNat, List.find?, helper_regionFromString_toString,
    helper_sectorFromString_toString, Rat.den_natCast, Rat.num_natCast]

/-- C3: every price produced by the per-cycle update
`p ← max(p·(1 + 0.002·c), 0.01)` is at least 0.01, for every innovation
`c`; hence every tick emitted across any multi-cycle run carries a finite
price that is strictly positive. -/
theorem emitted_prices_positive (equities : List Equity) (prices : List ℚ)
    (cycles : List (List ℚ × ℕ)) :
    (∀ p c : ℚ, 1 / 100 ≤ updatePrice p c) ∧
    ∀ t ∈ runCycles equities prices cycles,
      1 / 100 ≤ t.price ∧ 0 < t.price := by
  have hstep : ∀ p c : ℚ, 1 / 100 ≤ updatePrice p c := fun p c =>
    le_max_right _ _
  refine ⟨hstep, ?_⟩
  induction cycles generalizing prices with
  | nil => intro t ht; simp [runCycles] at ht
  | cons cycle rest ih =>
    intro t ht
    rw [runCycles, List.mem_append] at ht
    rcases ht with ht | ht
    · rw [generateCycle, List.mem_map] at ht
      obtain ⟨entry, -, rfl⟩ := ht
      refine ⟨hstep _ _, lt_of_lt_of_le (by norm_num) (hstep _ _)⟩
    · exact ih _ t ht

/-- Witness for C3 at a concrete input: a one-equity, one-cycle run. -/
theorem emitted_prices_positive_witness :
    (1 / 100 : ℚ) ≤ updatePrice 5 (-3) ∧
    0 < (Tick.mk ("NATECH000") 1 100 .northAmerica .technology).price := by
  refine ⟨(emitted_prices_positive [] [] []).1 5 (-3), ?_⟩
  have hev : runCycles [equityW] [1] [([0], 100)]
      = [Tick.mk ("NATECH000") 1 100 .northAmerica .technology] := by
    norm_num [runCycles, generateCycle, cyclePrices, equityW, updatePrice,
      max_def, List.enum, List.enumFrom]
  have hmem : (Tick.mk ("NATECH000") 1 100 .northAmerica .technology) ∈
      runCycles [equityW] [1] [([0], 100)] := by
    rw [hev]; exact List.mem_singleton.mpr rfl
  exact ((emitted_prices_positive [equityW] [1] [([0], 100)]).2 _ hmem).2

/-- Enumerating a list and keeping only a function of the indices is the
same as mapping that function over `range`. -/
theorem helper_enum_map {α β : Type} (g : ℕ → β) (l : List α) :
    l.enum.map (fun p => g p.1) = (List.range l.length).map g := by
  have h1 : l.enum.map (fun p => g p.1) = (l.enum.map Prod.fst).map g := by
    rw [List.map_map]; rfl
  rw [h1, List.enum_eq_enumFrom, List.enumFrom_map_fst, List.range_eq_range']

/-- The timestamps of one generator cycle are `t0`, `t0+1`, ... in
emission order. -/
theorem helper_cycle_timestamps (eqs : List Equity) (ps cs : List ℚ)
    (t0 : ℕ) :
    (generateCycle eqs ps cs t0).map Tick.timestamp_ms
      = (List.range ((ps.zip eqs).zip cs).length).map (fun i => t0 + i) := by
  unfold generateCycle
  rw [List.map_map]
  exact helper_enum_map (fun i => t0 + i) _

/-- Every timestamp of one cycle lies between `t0` and
`t0 + (|equities| - 1)`. -/
theorem helper_cycle_ts_bounds (eqs : List Equity) (ps cs : List ℚ)
    (t0 : ℕ) (x : ℕ)
    (hx : x ∈ (generateCycle eqs ps cs t0).map Tick.timestamp_ms) :
    t0 ≤ x ∧ x ≤ t0 + (eqs.length - 1) := by
  rw [helper_cycle_timestamps] at hx
  obtain ⟨i, hi, rfl⟩ := List.mem_map.mp hx
  rw [List.mem_range] at hi
  have hlen : ((ps.zip eqs).zip cs).length ≤ eqs.length := by
    simp only [List.length_zip]
    exact le_trans (min_le_left _ _) (min_le_right _ _)
  exact ⟨Nat.le_add_right _ _,
    Nat.add_le_add_left (Nat.le_sub_one_of_lt (lt_of_lt_of_le hi hlen)) t0⟩

/-- A `Chain'` of clock readings each advancing by at least `K` bounds all
later readings from below. -/
theorem helper_chain_lb {K : ℕ} :
    ∀ (c : List ℚ × ℕ) (rest : List (List ℚ × ℕ)),
      List.Chain' (fun a b : List ℚ × ℕ => a.2 + K ≤ b.2) (c :: rest) →
      ∀ y ∈ rest, c.2 + K ≤ y.2 := by
  intro c rest
  induction rest generalizing c with
  | nil => intro _ y hy; simp at hy
  | cons d rest ih =>
    intro h y hy
    have hcd : c.2 + K ≤ d.2 := List.chain'_cons.mp h |>.1
    rcases List.mem_cons.mp hy with rfl | hy
    · exact hcd
    · exact le_trans hcd
        (le_trans (Nat.le_add_right _ _) (ih d (List.chain'_cons.mp h).2 y hy))

/-- Every timestamp emitted by a run whose cycles all read the clock at or
above `lb` is at least `lb`. -/
theorem helper_run_lb (eqs : List Equity) (lb : ℕ) :
    ∀ (cycles : List (List ℚ × ℕ)) (ps : List ℚ),
      (∀ c ∈ cycles, lb ≤ c.2) →
      ∀ x ∈ (runCycles eqs ps cycles).map Tick.timestamp_ms, lb ≤ x := by
  intro cycles
  induction cycles with
  | nil => intro ps _ x hx; simp [runCycles] at hx
  | cons c rest ih =>
    intro ps hc x hx
    rw [runCycles, List.map_append, List.mem_append] at hx
    rcases hx with hx | hx
    · exact le_trans (hc c (List.mem_cons_self c rest)) (helper_cycle_ts_bounds _ _ _ _ _ hx).1
    · exact ih _ (fun d hd => hc d (List.mem_cons_of_mem _ hd)) x hx

/-- C2 (as stated, refuted): a two-equity, two-cycle run whose wall-clock
readings are non-decreasing (both 100) emits timestamps 100, 101, 100,
101 — the third emitted tick's timestamp is smaller than the second's, so
emission-order timestamps are not non-decreasing under the claim's
assumption alone. -/
theorem timestamps_nondecreasing_counterexample :
    List.Chain' (· ≤ ·)
      (([([0, 0], 100), ([0, 0], 100)] : List (List ℚ × ℕ)).map Prod.snd) ∧
    ¬ List.Pairwise (· ≤ ·)
      ((runCycles eqs2W [1, 1] [([0, 0], 100), ([0, 0], 100)]).map
        Tick.timestamp_ms) := by
  constructor
  · norm_num [List.chain'_cons, List.chain'_singleton]
  · intro h
    have hts : (runCycles eqs2W [1, 1] [([0, 0], 100), ([0, 0], 100)]).map
        Tick.timestamp_ms = [100, 101, 100, 101] := by
      norm_num [runCycles, generateCycle, cyclePrices, eqs2W, equityW,
        updatePrice, max_def, List.enum, List.enumFrom]
    rw [hts] at h
    have := (List.pairwise_cons.mp (List.pairwise_cons.mp h).2).1 100 (by simp)
    omega

/-- C2 (amended): within one cycle timestamps strictly increase, and
across cycles emission-order timestamps are non-decreasing provided each
successive wall-clock reading advances by at least `N - 1` milliseconds
(`N` the universe size) — the claim's bare non-decreasing-clock assumption
is not enough. -/
theorem run_timestamps_nondecreasing (equities : List Equity)
    (prices : List ℚ) (cycles : List (List ℚ × ℕ))
    (h : List.Chain'
      (fun a b : List ℚ × ℕ => a.2 + (equities.length - 1) ≤ b.2) cycles) :
    List.Pairwise (· ≤ ·)
      ((runCycles equities prices cycles).map Tick.timestamp_ms) := by
  induction cycles generalizing prices with
  | nil => simp [runCycles]
  | cons c rest ih =>
    rw [runCycles, List.map_append]
    rw [List.pairwise_append]
    refine ⟨?_, ih _ h.tail, ?_⟩
    · rw [helper_cycle_timestamps]
      exact (List.pairwise_le_range _).map _ (fun a b hab => Nat.add_le_add_left hab c.2)
    · intro a ha b hb
      have ha2 := (helper_cycle_ts_bounds _ _ _ _ _ ha).2
      have hb2 : c.2 + (equities.length - 1) ≤ b :=
        helper_run_lb equities _ rest _ (helper_chain_lb c rest h) b hb
      exact le_trans ha2 hb2

/-- Witness for the amended C2: two cycles over two equities whose clock
readings advance by exactly `N - 1 = 1` millisecond. -/
theorem run_timestamps_nondecreasing_witness :
    List.Pairwise (· ≤ ·)
      ((runCycles eqs2W [1, 1] [([0, 0], 100), ([0, 0], 101)]).map
        Tick.timestamp_ms) :=
  run_timestamps_nondecreasing eqs2W [1, 1] [([0, 0], 100), ([0, 0], 101)]
    (by norm_num [List.chain'_cons, List.chain'_singleton, eqs2W, equityW])

/-- C6: one generator cycle over `N` equities produces exactly one tick
per equity, in symbol-index order: the `i`-th tick carries that equity's
symbol, region and sector, the updated price, and
`timestamp_ms = t0 + i`; hence timestamps strictly increase within the
batch. -/
theorem generate_cycle_batch (equities : List Equity)
    (prices corrs : List ℚ) (t0 : ℕ)
    (h1 : prices.length = equities.length)
    (h2 : corrs.length = equities.length) :
    (generateCycle equities prices corrs t0).length = equities.length ∧
    (∀ (i : ℕ) (hg : i < (generateCycle equities prices corrs t0).length)
        (he : i < equities.length) (hp : i < prices.length)
        (hc : i < corrs.length),
        (generateCycle equities prices corrs t0).get ⟨i, hg⟩ =
          { symbol := (equities.get ⟨i, he⟩).symbol
            price := updatePrice (prices.get ⟨i, hp⟩) (corrs.get ⟨i, hc⟩)
            timestamp_ms := t0 + i
            region := (equities.get ⟨i, he⟩).region
            sector := (equities.get ⟨i, he⟩).sector }) ∧
    List.Pairwise (· < ·)
      ((generateCycle equities prices corrs t0).map Tick.timestamp_ms) := by
  refine ⟨?_, ?_, ?_⟩
  · simp [generateCycle, h1, h2]
  · intro i hg he hp hc
    simp only [List.get_eq_getElem, generateCycle, List.getElem_map,
      List.enum_eq_enumFrom, List.getElem_enumFrom, List.getElem_zip,
      Nat.zero_add]
  · rw [helper_cycle_timestamps]
    exact (List.pairwise_lt_range _).map _
      (fun a b hab => Nat.add_lt_add_left hab t0)

/-- Witness for C6 at a concrete input: two equities, prices `[1, 2]`,
innovations `[0, 0]`, clock reading 50. -/
theorem generate_cycle_batch_witness :
    (generateCycle eqs2W [1, 2] [0, 0] 50).length = 2 ∧
    (generateCycle eqs2W [1, 2] [0, 0] 50).get ⟨1, by decide⟩ =
      { symbol := (eqs2W.get ⟨1, by decide⟩).symbol
        price := updatePrice (([1, 2] : List ℚ).get ⟨1, by decide⟩)
          (([0, 0] : List ℚ).get ⟨1, by decide⟩)
        timestamp_ms := 50 + 1
        region := (eqs2W.get ⟨1, by decide⟩).region
        sector := (eqs2W.get ⟨1, by decide⟩).sector } ∧
    List.Pairwise (· < ·)
      ((generateCycle eqs2W [1, 2] [0, 0] 50).map Tick.timestamp_ms) := by
  have h := generate_cycle_batch eqs2W [1, 2] [0, 0] 50 (by decide) (by decide)
  exact ⟨h.1, h.2.1 1 (by decide) (by decide) (by decide) (by decide), h.2.2⟩

/-- `find?` is unchanged by a filter that keeps everything the predicate
could match. -/
theorem helper_find?_filter {α : Type} (p q : α → Bool)
    (hpq : ∀ x, p x = true → q x = true) :
    ∀ l : List α, (l.filter q).find? p = l.find? p := by
  intro l
  induction l with
  | nil => rfl
  | cons a l ih =>
    by_cases hq : q a = true
    · by_cases hp : p a = true
      · simp [List.filter_cons, hq, List.find?_cons_of_pos, hp]
      · rw [List.filter_cons, if_pos hq, List.find?_cons_of_neg _ hp,
          List.find?_cons_of_neg _ hp, ih]
    · have hp : ¬ p a = true := fun hpa => hq (hpq a hpa)
      rw [List.filter_cons, if_neg hq, ih, List.find?_cons_of_neg _ hp]

/-- Looking a symbol up after an `ingest`: the ingested symbol maps to the
new tick, every other symbol to its previous binding. -/
theorem helper_find_ingest (acc : BatchAccumulator) (t : Tick) (s : String) :
    (acc.ingest t).find s = if t.symbol == s then some t else acc.find s := by
  by_cases h : t.symbol = s
  · subst h
    simp [BatchAccumulator.ingest, BatchAccumulator.find,
      List.find?_cons_of_pos]
  · have hbeq : (t.symbol == s) = false := beq_eq_false_iff_ne.mpr h
    rw [BatchAccumulator.ingest, BatchAccumulator.find, hbeq, if_neg
      (by simp)]
    simp only
    rw [List.find?_cons_of_neg _ (by simp [hbeq]), BatchAccumulator.find,
      helper_find?_filter]
    intro kv hkv
    have : kv.1 = s := by simpa using hkv
    simp [this, Ne.symm h]

/-- Folding one more tick into the accumulator from the right. -/
theorem helper_ingestAll_concat (ts : List Tick) (t : Tick) :
    ingestAll (ts ++ [t]) = (ingestAll ts).ingest t := by
  rw [ingestAll, ingestAll, List.foldl_append]
  rfl

/-- The accumulator lookup returns the LAST ingested tick for a symbol:
`HashMap::insert` overwrite semantics. -/
theorem helper_find_ingestAll (ts : List Tick) (s : String) :
    (ingestAll ts).find s = ts.reverse.find? (fun x => x.symbol == s) := by
  induction ts using List.reverseRecOn with
  | nil => rfl
  | append_singleton ts t ih =>
    rw [helper_ingestAll_concat, helper_find_ingest, List.reverse_append]
    by_cases h : t.symbol = s
    · simp [h]
    · have hbeq : (t.symbol == s) = false := beq_eq_false_iff_ne.mpr h
      simp only [hbeq, if_neg, List.reverse_singleton, List.singleton_append,
        Bool.false_eq_true, not_false_eq_true, List.find?_cons_of_neg, ih]

/-- With pairwise-distinct keys, membership determines the result of
`find?` on an association list. -/
theorem helper_find?_of_mem_nodup :
    ∀ (l : List (String × Tick)) (s : String) (x : Tick),
      (l.map Prod.fst).Nodup → (s, x) ∈ l →
      l.find? (fun kv => kv.1 == s) = some (s, x) := by
  intro l
  induction l with
  | nil => intro s x _ hmem; simp at hmem
  | cons kv rest ih =>
    intro s x hnd hmem
    rw [List.map_cons, List.nodup_cons] at hnd
    rcases List.mem_cons.mp hmem with rfl | hmem
    · exact List.find?_cons_of_pos _ (by simp)
    · have hne : ¬ kv.1 = s := fun he =>
        hnd.1 (he ▸ List.mem_map.mpr ⟨(s, x), hmem, rfl⟩)
      rw [List.find?_cons_of_neg _ (by simpa using hne)]
      exact ih s x hnd.2 hmem

/-- Every entry of a reachable accumulator is keyed by its tick's
symbol. -/
theorem helper_ingestAll_keys :
    ∀ (ts : List Tick) (acc : BatchAccumulator),
      (∀ kv ∈ acc.latest, kv.1 = kv.2.symbol) →
      ∀ kv ∈ (ts.foldl BatchAccumulator.ingest acc).latest,
        kv.1 = kv.2.symbol := by
  intro ts
  induction ts with
  | nil => intro acc h; exact h
  | cons t ts ih =>
    intro acc h
    rw [List.foldl_cons]
    refine ih _ ?_
    intro kv hkv
    rcases List.mem_cons.mp hkv with rfl | hkv
    · rfl
    · exact h kv (List.mem_of_mem_filter hkv)

/-- The keys of a reachable accumulator are pairwise distinct. -/
theorem helper_ingestAll_nodup :
    ∀ (ts : List Tick) (acc : BatchAccumulator),
      (acc.latest.map Prod.fst).Nodup →
      (((ts.foldl BatchAccumulator.ingest acc).latest).map Prod.fst).Nodup := by
  intro ts
  induction ts with
  | nil => intro acc h; exact h
  | cons t ts ih =>
    intro acc h
    rw [List.foldl_cons]
    refine ih _ ?_
    rw [BatchAccumulator.ingest, List.map_cons, List.nodup_cons]
    constructor
    · intro hmem
      obtain ⟨kv, hkv, hk⟩ := List.mem_map.mp hmem
      have := List.of_mem_filter hkv
      rw [hk] at this
      simp at this
    · exact ((List.filter_sublist _).map Prod.fst).nodup h

/-- Strict pairwise symbol ordering from non-strict sortedness plus
distinct symbols. -/
theorem helper_pairwise_strict :
    ∀ l : List Tick, l.Pairwise (fun a b => a.symbol ≤ b.symbol) →
      (l.map Tick.symbol).Nodup →
      l.Pairwise (fun a b => a.symbol < b.symbol) := by
  intro l
  induction l with
  | nil => intro _ _; exact List.Pairwise.nil
  | cons a l ih =>
    intro hle hnd
    rw [List.map_cons, List.nodup_cons] at hnd
    rw [List.pairwise_cons] at hle ⊢
    refine ⟨fun b hb => lt_of_le_of_ne (hle.1 b hb) ?_, ih hle.2 hnd.2⟩
    intro he
    exact hnd.1 (he ▸ List.mem_map.mpr ⟨b, hb, rfl⟩)

/-- C7: a gateway snapshot contains each symbol at most once — symbols are
strictly ascending in lexicographic order — and each snapshot entry is the
latest ingested tick for its symbol. -/
theorem snapshot_sorted_unique_latest (ts : List Tick) :
    ((ingestAll ts).snapshot).Pairwise (fun a b => a.symbol < b.symbol) ∧
    ∀ t ∈ (ingestAll ts).snapshot,
      ts.reverse.find? (fun x => x.symbol == t.symbol) = some t := by
  have hkeys := helper_ingestAll_keys ts BatchAccumulator.empty
    (by intro kv hkv; simp [BatchAccumulator.empty] at hkv)
  have hnodup := helper_ingestAll_nodup ts BatchAccumulator.empty
    (by simp [BatchAccumulator.empty])
  have hperm : List.Perm ((ingestAll ts).snapshot)
      ((ingestAll ts).latest.map Prod.snd) :=
    List.perm_insertionSort _ _
  have hsorted : ((ingestAll ts).snapshot).Pairwise
      (fun a b => a.symbol ≤ b.symbol) :=
    List.sorted_insertionSort _ _
  have hsymbols : (((ingestAll ts).latest.map Prod.snd).map Tick.symbol).Nodup := by
    rw [List.map_map]
    have : (ingestAll ts).latest.map (Tick.symbol ∘ Prod.snd)
        = (ingestAll ts).latest.map Prod.fst :=
      List.map_congr_left (fun kv hkv => (hkeys kv hkv).symm)
    rw [this]
    exact hnodup
  have hsnapshot_nodup : (((ingestAll ts).snapshot).map Tick.symbol).Nodup :=
    (List.Perm.nodup_iff (hperm.map Tick.symbol)).mpr hsymbols
  refine ⟨helper_pairwise_strict _ hsorted hsnapshot_nodup, ?_⟩
  intro t ht
  have hmem : t ∈ (ingestAll ts).latest.map Prod.snd := hperm.mem_iff.mp ht
  obtain ⟨kv, hkv, hk⟩ := List.mem_map.mp hmem
  have hkey : kv = (t.symbol, t) := by
    have h1 := hkeys kv hkv
    rw [hk] at h1
    exact Prod.ext h1 hk
  rw [hkey] at hkv
  have hfind : (ingestAll ts).latest.find? (fun kv => kv.1 == t.symbol)
      = some (t.symbol, t) :=
    helper_find?_of_mem_nodup _ _ _ hnodup hkv
  have : (ingestAll ts).find t.symbol = some t := by
    rw [BatchAccumulator.find, hfind]; rfl
  rw [← helper_find_ingestAll]
  exact this

/-- Witness for C7 at a concrete input: two ticks ingested in descending
symbol order. -/
theorem snapshot_sorted_unique_latest_witness :
    ((ingestAll [tickAW, tickBW]).snapshot).Pairwise
      (fun a b => a.symbol < b.symbol) ∧
    [tickAW, tickBW].reverse.find? (fun x => x.symbol == tickBW.symbol)
      = some tickBW := by
  have h := snapshot_sorted_unique_latest [tickAW, tickBW]
  refine ⟨h.1, h.2 tickBW ?_⟩
  have hmem : tickBW ∈ (ingestAll [tickAW, tickBW]).latest.map Prod.snd := by
    decide
  exact ((List.perm_insertionSort _ _).mem_iff).mpr hmem

/-- C10: taking a snapshot never mutates the accumulator (`snapshot` takes
`&self` and the aggregator never drains it): the timer arm leaves the
accumulator unchanged, two consecutive throttle windows with no
intervening ticks enqueue the identical batch twice, and every symbol
present in the accumulator appears in every snapshot. -/
theorem snapshot_preserves_accumulator (queueDepth : ℕ)
    (s : AggregatorState)
    (h1 : s.acc.isEmpty = false)
    (h2 : s.acc.snapshot.isEmpty = false)
    (h3 : s.queue.length + 2 ≤ queueDepth) :
    (∀ (d : ℕ) (s2 : AggregatorState),
      (aggregatorStep d s2 .timer).1.acc = s2.acc) ∧
    (aggregatorStep queueDepth
        (aggregatorStep queueDepth s .timer).1 .timer).1.queue
      = s.queue ++ [s.acc.snapshot, s.acc.snapshot] ∧
    (∀ (acc : BatchAccumulator) (sym : String) (t : Tick),
      acc.find sym = some t → t ∈ acc.snapshot) := by
  refine ⟨?_, ?_, ?_⟩
  · intro d s2
    by_cases hb1 : s2.acc.isEmpty = true
    · simp [aggregatorStep, hb1]
    · by_cases hb2 : s2.acc.snapshot.isEmpty = true
      · simp [aggregatorStep, hb1, hb2]
      · by_cases hb3 : s2.queue.length < d
        · simp [aggregatorStep, hb1, hb2, hb3]
        · simp [aggregatorStep, hb1, hb2, hb3]
  · have hroom1 : s.queue.length < queueDepth := by omega
    have e1 : aggregatorStep queueDepth s .timer
        = ({ s with queue := s.queue ++ [s.acc.snapshot] }, none) := by
      simp [aggregatorStep, h1, h2, hroom1]
    rw [e1]
    have hroom2 : s.queue.length + 1 < queueDepth := by omega
    have e2 : aggregatorStep queueDepth
        ({ s with queue := s.queue ++ [s.acc.snapshot] }) .timer
        = ({ s with queue := (s.queue ++ [s.acc.snapshot])
            ++ [s.acc.snapshot] }, none) := by
      simp [aggregatorStep, h1, h2, hroom2]
    rw [e2, List.append_assoc]
    rfl
  · intro acc sym t hfind
    rw [BatchAccumulator.find] at hfind
    obtain ⟨kv, hkv, hk⟩ := Option.map_eq_some'.mp hfind
    have hmem : t ∈ acc.latest.map Prod.snd :=
      List.mem_map.mpr ⟨kv, List.mem_of_find?_eq_some hkv, hk⟩
    rw [BatchAccumulator.snapshot, List.mem_insertionSort]
    exact hmem

/-- Witness for C10 at a concrete input: an accumulator holding one tick
and an empty queue of depth 4. -/
theorem snapshot_preserves_accumulator_witness :
    (aggregatorStep 4 sW .timer).1.acc = sW.acc ∧
    (aggregatorStep 4 (aggregatorStep 4 sW .timer).1 .timer).1.queue
      = sW.queue ++ [sW.acc.snapshot, sW.acc.snapshot] ∧
    tickAW ∈ (ingestAll [tickAW]).snapshot := by
  have h := snapshot_preserves_accumulator 4 sW (by decide) (by decide)
    (by decide)
  exact ⟨h.1 4 sW, h.2.1,
    h.2.2 (ingestAll [tickAW]) tickAW.symbol tickAW (by decide)⟩

/-- C1 (code bug): on a full queue the aggregator reports
`GatewayBackpressure { dropped: 1 }`, but the `MetricsEvent` enum declared
in `metrics.rs` has only the variants `TickBatch`, `GatewayBatch` and
`GatewayLag`, so the reported event is NOT a member of the type the
metrics reporter consumes (and the reporter's summary consequently carries
no drop counter). -/
theorem backpressure_event_not_in_metrics (queueDepth : ℕ)
    (s : AggregatorState)
    (h1 : s.acc.isEmpty = false)
    (h2 : s.acc.snapshot.isEmpty = false)
    (h3 : queueDepth ≤ s.queue.length) :
    (aggregatorStep queueDepth s .timer).2
      = some (ReportedMetric.gatewayBackpressure 1) ∧
    asMetricsEvent (ReportedMetric.gatewayBackpressure 1) = none ∧
    ∀ e : MetricsEvent,
      (∃ g, e = .tickBatch g) ∨ (∃ k, e = .gatewayBatch k) ∨
      (∃ k c, e = .gatewayLag k c) := by
  refine ⟨?_, rfl, ?_⟩
  · have hfull : ¬ s.queue.length < queueDepth := Nat.not_lt.mpr h3
    simp [aggregatorStep, h1, h2, hfull]
  · intro e
    cases e with
    | tickBatch g => exact .inl ⟨g, rfl⟩
    | gatewayBatch k => exact .inr (.inl ⟨k, rfl⟩)
    | gatewayLag k c => exact .inr (.inr ⟨k, c, rfl⟩)

/-- Witness for C1 at a concrete input: one accumulated tick, a queue of
depth 1 already holding one batch. -/
theorem backpressure_event_not_in_metrics_witness :
    (aggregatorStep 1 s1W .timer).2
      = some (ReportedMetric.gatewayBackpressure 1) ∧
    asMetricsEvent (ReportedMetric.gatewayBackpressure 1) = none := by
  have h := backpressure_event_not_in_metrics 1 s1W (by decide) (by decide)
    (by decide)
  exact ⟨h.1, h.2.1⟩

/-- `refresh` either fails with `CorrelationNotPD` leaving the receiver
untouched, or succeeds with the renormalized blended matrix installed. -/
theorem helper_refresh_shape {n : ℕ}
    (chol : Matrix (Fin n) (Fin n) ℚ → Option (Matrix (Fin n) (Fin n) ℚ))
    (sqrtFn : ℚ → ℚ) (u : StockUniverse n)
    (draws : Fin n → FactorDraws) (jitter : Fin n → ℚ) :
    u.refresh chol sqrtFn draws jitter = (u, .error .correlationNotPD) ∨
    ((u.refresh chol sqrtFn draws jitter).2 = .ok () ∧
     (u.refresh chol sqrtFn draws jitter).1.correlation
       = renormalize sqrtFn (Matrix.of fun i j =>
           u.correlation i j * (8 / 10)
             + factorBasedCorrelation sqrtFn u.equities draws jitter i j
                 * (2 / 10))) := by
  rw [StockUniverse.refresh]
  split
  · rename_i e heq
    cases e
    exact Or.inl rfl
  · exact Or.inr ⟨rfl, rfl⟩

/-- `rebuild` either fails with `CorrelationNotPD` leaving the receiver
untouched, or succeeds with a freshly drawn correlation installed. -/
theorem helper_rebuild_shape {n : ℕ}
    (chol : Matrix (Fin n) (Fin n) ℚ → Option (Matrix (Fin n) (Fin n) ℚ))
    (sqrtFn : ℚ → ℚ) (u : StockUniverse n)
    (draws : Fin n → FactorDraws) (jitter : Fin n → ℚ) :
    u.rebuild chol sqrtFn draws jitter = (u, .error .correlationNotPD) ∨
    ((u.rebuild chol sqrtFn draws jitter).2 = .ok () ∧
     (u.rebuild chol sqrtFn draws jitter).1.correlation
       = factorBasedCorrelation sqrtFn u.equities draws jitter) := by
  rw [StockUniverse.rebuild]
  split
  · rename_i e heq
    cases e
    exact Or.inl rfl
  · exact Or.inr ⟨rfl, rfl⟩

/-- `new` either fails with `CorrelationNotPD` or returns a universe whose
correlation is the freshly drawn factor-based one. -/
theorem helper_new_shape {n : ℕ}
    (chol : Matrix (Fin n) (Fin n) ℚ → Option (Matrix (Fin n) (Fin n) ℚ))
    (sqrtFn : ℚ → ℚ) (equities : Fin n → Equity)
    (draws : Fin n → FactorDraws) (jitter : Fin n → ℚ) :
    StockUniverse.new chol sqrtFn equities draws jitter
      = .error .correlationNotPD ∨
    ∃ L, StockUniverse.new chol sqrtFn equities draws jitter
      = .ok ⟨equities, factorBasedCorrelation sqrtFn equities draws jitter,
             L⟩ := by
  rw [StockUniverse.new]
  split
  · rename_i e heq
    cases e
    exact Or.inl rfl
  · rename_i L heq
    exact Or.inr ⟨L, rfl⟩

/-- C4: if `refresh` fails — or, independently, if `rebuild` fails —
because the Cholesky factorization of its candidate matrix does not
exist, then the stored correlation matrix and Cholesky factor are both
unchanged by that call — the error is surfaced and the previous valid
state kept.  Each conjunct quantifies over its own Cholesky routine and
draws, so either operation failing alone is covered. -/
theorem refresh_rebuild_keep_state_on_error {n : ℕ}
    (u : StockUniverse n) :
    (∀ (chol : Matrix (Fin n) (Fin n) ℚ → Option (Matrix (Fin n) (Fin n) ℚ))
       (sqrtFn : ℚ → ℚ) (draws : Fin n → FactorDraws)
       (jitter : Fin n → ℚ) (e : SimError),
      (u.refresh chol sqrtFn draws jitter).2 = .error e →
      (u.refresh chol sqrtFn draws jitter).1.correlation = u.correlation ∧
      (u.refresh chol sqrtFn draws jitter).1.cholesky = u.cholesky) ∧
    (∀ (chol : Matrix (Fin n) (Fin n) ℚ → Option (Matrix (Fin n) (Fin n) ℚ))
       (sqrtFn : ℚ → ℚ) (draws : Fin n → FactorDraws)
       (jitter : Fin n → ℚ) (e : SimError),
      (u.rebuild chol sqrtFn draws jitter).2 = .error e →
      (u.rebuild chol sqrtFn draws jitter).1.correlation = u.correlation ∧
      (u.rebuild chol sqrtFn draws jitter).1.cholesky = u.cholesky) := by
  constructor
  · intro chol sqrtFn draws jitter e h
    rcases helper_refresh_shape chol sqrtFn u draws jitter with hs | hs
    · rw [hs]
      exact ⟨rfl, rfl⟩
    · rw [hs.1] at h
      exact absurd h (by simp)
  · intro chol sqrtFn draws jitter e h
    rcases helper_rebuild_shape chol sqrtFn u draws jitter with hs | hs
    · rw [hs]
      exact ⟨rfl, rfl⟩
    · rw [hs.1] at h
      exact absurd h (by simp)

/-- Witness for C4 at a concrete input: a one-equity universe refreshed,
and separately rebuilt, under a Cholesky routine that fails; each
conjunct of the theorem is applied on its own. -/
theorem refresh_rebuild_keep_state_on_error_witness :
    ((uW.refresh cholNoneW id drawsW jitterW).1.correlation
        = uW.correlation ∧
     (uW.refresh cholNoneW id drawsW jitterW).1.cholesky = uW.cholesky) ∧
    ((uW.rebuild cholNoneW id drawsW jitterW).1.correlation
        = uW.correlation ∧
     (uW.rebuild cholNoneW id drawsW jitterW).1.cholesky = uW.cholesky) :=
  ⟨(refresh_rebuild_keep_state_on_error uW).1 cholNoneW id drawsW jitterW
      .correlationNotPD rfl,
   (refresh_rebuild_keep_state_on_error uW).2 cholNoneW id drawsW jitterW
      .correlationNotPD rfl⟩

/-- The renormalization forces every diagonal entry to 1 exactly. -/
theorem helper_renormalize_diag {n : ℕ} (sqrtFn : ℚ → ℚ)
    (m : Matrix (Fin n) (Fin n) ℚ) (i : Fin n) :
    renormalize sqrtFn m i i = 1 := by
  simp [renormalize]

/-- The renormalization of a symmetric matrix is symmetric. -/
theorem helper_renormalize_symm {n : ℕ} (sqrtFn : ℚ → ℚ)
    (m : Matrix (Fin n) (Fin n) ℚ)
    (hm : ∀ i j, m j i = m i j) (i j : Fin n) :
    renormalize sqrtFn m j i = renormalize sqrtFn m i j := by
  by_cases h : i = j
  · subst h; rfl
  · simp only [renormalize, Matrix.of_apply]
    rw [if_neg (fun he => h he.symm), if_neg h, hm i j, mul_comm]

/-- The factor-based candidate matrix is symmetric. -/
theorem helper_factor_symm {n : ℕ} (sqrtFn : ℚ → ℚ)
    (equities : Fin n → Equity) (draws : Fin n → FactorDraws)
    (jitter : Fin n → ℚ) (i j : Fin n) :
    factorBasedCorrelation sqrtFn equities draws jitter j i
      = factorBasedCorrelation sqrtFn equities draws jitter i j := by
  unfold factorBasedCorrelation
  refine helper_renormalize_symm sqrtFn _ ?_ i j
  intro a b
  simp only [Matrix.add_apply, Matrix.mul_apply, Matrix.transpose_apply,
    Matrix.of_apply]
  congr 1
  · exact Finset.sum_congr rfl (fun k _ => mul_comm _ _)
  · rw [Matrix.diagonal_apply, Matrix.diagonal_apply]
    by_cases hab : a = b
    · subst hab; rfl
    · rw [if_neg (fun he => hab he.symm), if_neg hab]

/-- The factor-based candidate matrix has unit diagonal. -/
theorem helper_factor_diag {n : ℕ} (sqrtFn : ℚ → ℚ)
    (equities : Fin n → Equity) (draws : Fin n → FactorDraws)
    (jitter : Fin n → ℚ) (i : Fin n) :
    factorBasedCorrelation sqrtFn equities draws jitter i i = 1 := by
  unfold factorBasedCorrelation
  exact helper_renormalize_diag sqrtFn _ i

/-- C5: every universe produced by a successful construction, refresh, or
rebuild stores a correlation matrix with every diagonal entry exactly 1
(hence within the spec's 1e-9 tolerance) that is symmetric. -/
theorem universe_unit_diagonal_symmetric {n : ℕ}
    (chol : Matrix (Fin n) (Fin n) ℚ → Option (Matrix (Fin n) (Fin n) ℚ))
    (sqrtFn : ℚ → ℚ) (equities : Fin n → Equity)
    (draws : Fin n → FactorDraws) (jitter : Fin n → ℚ)
    (u u2 : StockUniverse n)
    (hsymm : ∀ i j, u.correlation j i = u.correlation i j) :
    (StockUniverse.new chol sqrtFn equities draws jitter = .ok u2 →
      (∀ i, u2.correlation i i = 1) ∧
      (∀ i j, u2.correlation j i = u2.correlation i j)) ∧
    ((u.refresh chol sqrtFn draws jitter).2 = .ok () →
      (∀ i, (u.refresh chol sqrtFn draws jitter).1.correlation i i = 1) ∧
      (∀ i j, (u.refresh chol sqrtFn draws jitter).1.correlation j i
        = (u.refresh chol sqrtFn draws jitter).1.correlation i j)) ∧
    ((u.rebuild chol sqrtFn draws jitter).2 = .ok () →
      (∀ i, (u.rebuild chol sqrtFn draws jitter).1.correlation i i = 1) ∧
      (∀ i j, (u.rebuild chol sqrtFn draws jitter).1.correlation j i
        = (u.rebuild chol sqrtFn draws jitter).1.correlation i j)) := by
  refine ⟨?_, ?_, ?_⟩
  · intro hok
    rcases helper_new_shape chol sqrtFn equities draws jitter with hs | ⟨L, hs⟩
    · rw [hs] at hok
      exact absurd hok (by simp)
    · rw [hs] at hok
      injection hok with hu
      rw [← hu]
      exact ⟨helper_factor_diag sqrtFn equities draws jitter,
        helper_factor_symm sqrtFn equities draws jitter⟩
  · intro hok
    rcases helper_refresh_shape chol sqrtFn u draws jitter with hs | ⟨-, hcorr⟩
    · rw [hs] at hok
      exact absurd hok (by simp)
    · rw [hcorr]
      refine ⟨fun i => helper_renormalize_diag sqrtFn _ i,
        fun i j => helper_renormalize_symm sqrtFn _ ?_ i j⟩
      intro a b
      simp only [Matrix.of_apply]
      rw [hsymm a b, helper_factor_symm sqrtFn u.equities draws jitter a b]
  · intro hok
    rcases helper_rebuild_shape chol sqrtFn u draws jitter with hs | ⟨-, hcorr⟩
    · rw [hs] at hok
      exact absurd hok (by simp)
    · rw [hcorr]
      exact ⟨helper_factor_diag sqrtFn u.equities draws jitter,
        helper_factor_symm sqrtFn u.equities draws jitter⟩

/-- Witness for C5 at a concrete input: a one-equity universe built,
refreshed and rebuilt under an always-succeeding Cholesky routine. -/
theorem universe_unit_diagonal_symmetric_witness :
    (∀ i, u2W.correlation i i = 1) ∧
    (∀ i, (uW.refresh cholOkW id drawsW jitterW).1.correlation i i = 1) ∧
    (∀ i, (uW.rebuild cholOkW id drawsW jitterW).1.correlation i i = 1) := by
  have h := universe_unit_diagonal_symmetric cholOkW id equitiesW1 drawsW
    jitterW uW u2W (fun i j => rfl)
  exact ⟨(h.1 rfl).1, (h.2.1 rfl).1, (h.2.2 rfl).1⟩
